import Mathlib

set_option maxRecDepth 100000

/-!
Shallow embedding of the hierarchical RAG index core of app_auth.py:
the chunker (chunk_text), the folder scanner (scan_folder_structure),
the index builder (rebuild_index), the debounced rebuild scheduler
(debounced_rebuild) and the two-stage retriever (retrieve_hierarchical).

Modelling conventions:
- Text is a list of characters; Python str.strip is modelled by pyStrip
  over the ASCII whitespace characters Python strips.
- Similarity scores are exact integers (the code computes float32 dot
  products; the ranking logic only uses addition, multiplication and
  comparison, which we model with exact arithmetic).
- The embedding model is an injected capability that may fail
  (SentenceTransformer.encode can raise); faiss index construction and
  normalize_L2 are injected as an error flag and a per-row map.
- numpy argsort is modelled as a stable ascending sort of indices
  (ties keep original index order); the code then reverses the result.
- Python dicts that are built by insertion (all_structures,
  folder_indices, folder_scores) are modelled as association lists in
  insertion order, matching dict iteration order.
- The module-level globals that rebuild_index publishes and
  retrieve_hierarchical reads are collected in the IndexState record;
  the sequential semantics of each function is modelled by explicit
  state passing.
-/

-- ================= CONFIG (app_auth.py lines 28-35) =================

def CHUNK_SIZE : Nat := 300
def CHUNK_OVERLAP : Nat := 30
def TOP_K_FOLDERS : Nat := 2
def TOP_K_CHUNKS : Nat := 3
def REBUILD_DEBOUNCE : Nat := 2

-- ================= TEXT AND CHUNKER =================

/-- The ASCII whitespace characters stripped by Python str.strip. -/
def isPySpace (c : Char) : Bool :=
  c == ' ' || c == '\t' || c == '\n' || c == '\r' || c == '\x0b' || c == '\x0c'

/-- Python str.strip: drop leading and trailing whitespace. -/
def pyStrip (s : List Char) : List Char :=
  ((s.dropWhile isPySpace).reverse.dropWhile isPySpace).reverse

/-- The slice stride of chunk_text: CHUNK_SIZE - CHUNK_OVERLAP. -/
def STRIDE : Nat := CHUNK_SIZE - CHUNK_OVERLAP

/-- Number of iterations of range(0, n, STRIDE) for n > 0: ceil(n / STRIDE). -/
def numSlices (n : Nat) : Nat := (n + STRIDE - 1) / STRIDE

/-- The slice text[i*STRIDE : i*STRIDE + CHUNK_SIZE] taken by chunk_text. -/
def sliceAt (t : List Char) (i : Nat) : List Char :=
  (t.drop (i * STRIDE)).take CHUNK_SIZE

/-- All slices of the (already stripped) text, each stripped again,
before the minimum-length filter. -/
def rawChunks (t : List Char) : List (List Char) :=
  (List.range (numSlices t.length)).map (fun i => pyStrip (sliceAt t i))

/-- chunk_text (app_auth.py lines 664-677): strip, slice with overlap,
strip each slice, keep slices longer than 50 characters, and fall back
to the whole stripped text when nothing survives. -/
def chunk_text (text : List Char) : List (List Char) :=
  let t := pyStrip text
  if t.isEmpty then []
  else
    let chunks := (rawChunks t).filter (fun c => 50 < c.length)
    if chunks.isEmpty then [t] else chunks

/-- Fragment c1 is followed by fragment c2 with an overlap of exactly k
characters: the last k characters of c1 are the first k characters of c2. -/
def overlapsBy (c1 c2 : List Char) (k : Nat) : Prop :=
  c1.drop (c1.length - k) = c2.take k ∧ k ≤ c1.length ∧ k ≤ c2.length

instance (c1 c2 : List Char) (k : Nat) : Decidable (overlapsBy c1 c2 k) := by
  unfold overlapsBy; infer_instance

-- ================= FOLDER SCANNER =================

/-- A directory entry of a scanned root. A file entry carries the
extracted text when the document loader succeeds on it (allowed
extension and readable), and none when the loader skips it. A dir
entry carries the documents loaded from that subdirectory (document
text extraction is the external collaborator, so the payload is the
already-extracted filename-to-text mapping in listing order). -/
inductive FsEntry where
  | file (name : String) (content : Option (List Char))
  | dir (name : String) (docs : List (String × List Char))
deriving DecidableEq

def FsEntry.isDirE : FsEntry → Bool
  | .dir _ _ => true
  | _ => false

/-- A root directory handed to scan_folder_structure. present is false
when os.path.exists fails on it. -/
structure BaseFolder where
  present : Bool
  entries : List FsEntry
deriving DecidableEq

/-- load_documents_from_folder restricted to the files directly inside
a folder: the loadable files in listing order. -/
def load_documents_from_folder (entries : List FsEntry) : List (String × List Char) :=
  entries.filterMap (fun e =>
    match e with
    | .file n (some c) => some (n, c)
    | _ => none)

/-- scan_folder_structure (app_auth.py lines 627-661): if the root has
at least one subdirectory, every subdirectory with at least one loaded
document becomes a folder; otherwise all directly contained files are
grouped under the synthetic folder named general (when any loaded). -/
def scan_folder_structure (b : BaseFolder) : List (String × List (String × List Char)) :=
  if !b.present then []
  else if b.entries.any FsEntry.isDirE then
    b.entries.filterMap (fun e =>
      match e with
      | .dir n docs => if docs.isEmpty then none else some (n, docs)
      | _ => none)
  else
    let docs := load_documents_from_folder b.entries
    if docs.isEmpty then [] else [("general", docs)]

-- ================= SCORES, VECTORS, EMBEDDING =================

/-- Exact model of similarity scores (float32 in the code). -/
abbrev Score := Int

abbrev Vec := List Score

/-- The embedding capability obtained from SentenceTransformer: text to
vector, may fail with an exception message. -/
abbrev EmbedCap := List Char → Except String Vec

/-- The numeric environment injected into build and retrieval:
faiss.normalize_L2 applied to one row. -/
structure NumEnv where
  normalize : Vec → Vec

-- ================= INDEX STATE =================

/-- Metadata stored per chunk (app_auth.py lines 740-745). -/
structure ChunkMeta where
  folder : String
  filename : String
  base_folder : String
  timestamp : Nat
deriving DecidableEq, Inhabited

/-- index_stats (app_auth.py): totals plus per-folder (chunks, files). -/
structure IndexStats where
  total_chunks : Nat
  total_files : Nat
  folders : List (String × Nat × Nat)
deriving DecidableEq, Inhabited

/-- The module-level globals published by rebuild_index and read by
retrieve_hierarchical (app_auth.py lines 118-127). -/
structure IndexState where
  global_chunks : List (List Char)
  global_index : Option (List Vec)
  global_embed_model : Option EmbedCap
  chunk_metadata : List ChunkMeta
  folder_indices : List (String × List Nat)
  last_index_update : Option Nat
  index_stats : IndexStats

-- ================= INDEX BUILDING =================

/-- defaultdict(list) append: add v to the list under key f, creating
the key at the end when absent (dict insertion order). -/
def assocAppend (l : List (String × List Nat)) (f : String) (v : Nat) :
    List (String × List Nat) :=
  match l with
  | [] => [(f, [v])]
  | (g, qs) :: rest => if g = f then (g, qs ++ [v]) :: rest else (g, qs) :: assocAppend rest f v

/-- The accumulator of the per-folder document processing loop of
rebuild_index: all_chunks, all_metadata, folder_indices_temp, stats. -/
structure BuildAcc where
  all_chunks : List (List Char)
  all_metadata : List ChunkMeta
  fidx : List (String × List Nat)
  stats : IndexStats

/-- One iteration of the inner chunk loop of rebuild_index: append the
chunk, its metadata, and its position under its folder key. -/
def addChunk (folder fname base : String) (ts : Nat) (acc : BuildAcc) (c : List Char) :
    BuildAcc :=
  { all_chunks := acc.all_chunks ++ [c]
    all_metadata := acc.all_metadata ++ [⟨folder, fname, base, ts⟩]
    fidx := assocAppend acc.fidx folder acc.all_chunks.length
    stats := acc.stats }

/-- Process one document of a folder: chunk it and append every chunk. -/
def processDoc (folder base : String) (ts : Nat) (acc : BuildAcc) (doc : String × List Char) :
    BuildAcc :=
  (chunk_text doc.2).foldl (addChunk folder doc.1 base ts) acc

/-- Process one merged folder: all its documents, then record its
statistics entry (chunk count and file count). -/
def processFolder (ts : Nat) (acc : BuildAcc)
    (fs : String × List (String × List Char) × String) : BuildAcc :=
  let acc2 := fs.2.1.foldl (processDoc fs.1 fs.2.2 ts) acc
  let added := acc2.all_chunks.length - acc.all_chunks.length
  { acc2 with stats :=
      { total_chunks := acc2.stats.total_chunks + added
        total_files := acc2.stats.total_files + fs.2.1.length
        folders := acc2.stats.folders ++ [(fs.1, added, fs.2.1.length)] } }

/-- The environment of one rebuild_index run: the two scanned roots,
the outcome of loading the embedding model, the outcome of the faiss
index construction, and the wall-clock time. -/
structure BuildEnv where
  docsRoot : BaseFolder
  uploadRoot : BaseFolder
  load_model : Except String EmbedCap
  faiss_error : Option String
  now : Nat

/-- The merged folder structures of both roots, each folder key
prefixed with the basename of its root (app_auth.py lines 691-700). -/
def mergedStructures (env : BuildEnv) :
    List (String × List (String × List Char) × String) :=
  ((scan_folder_structure env.docsRoot).map
      (fun p => ("documents_" ++ p.1, p.2, "documents"))) ++
  ((scan_folder_structure env.uploadRoot).map
      (fun p => ("uploaded_docs_" ++ p.1, p.2, "uploaded_docs")))

/-- The initial accumulator of rebuild_index. -/
def buildAcc0 : BuildAcc := ⟨[], [], [], ⟨0, 0, []⟩⟩

/-- The whole folder-by-folder processing loop of rebuild_index. -/
def processStructures (ts : Nat)
    (structs : List (String × List (String × List Char) × String)) : BuildAcc :=
  structs.foldl (processFolder ts) buildAcc0

/-- The batched embedding loop of rebuild_index: one vector per chunk,
in order; the first exception aborts the whole step. -/
def encodeAll (cap : EmbedCap) : List (List Char) → Except String (List Vec)
  | [] => .ok []
  | c :: cs =>
    match cap c with
    | .error e => .error e
    | .ok v =>
      match encodeAll cap cs with
      | .error e => .error e
      | .ok vs => .ok (v :: vs)

/-- The explicit empty snapshot published when no documents are found
(app_auth.py lines 702-710). last_index_update is not touched there. -/
def emptyPublishedState (st : IndexState) : IndexState :=
  { global_chunks := []
    global_index := none
    global_embed_model := none
    chunk_metadata := []
    folder_indices := []
    last_index_update := st.last_index_update
    index_stats := ⟨0, 0, []⟩ }

/-- rebuild_index (app_auth.py lines 681-810). The returned pair is the
outcome (ok, or the IndexBuildError message) together with the
published globals after the call: the code assigns the globals only in
the two success paths, so every error path leaves the state as it was. -/
def rebuild_index (nenv : NumEnv) (env : BuildEnv) (st : IndexState) :
    Except String Unit × IndexState :=
  if (mergedStructures env).isEmpty then
    (.ok (), emptyPublishedState st)
  else
    match env.load_model with
    | .error e => (.error ("Failed to load embedding model: " ++ e), st)
    | .ok cap =>
      if (processStructures env.now (mergedStructures env)).all_chunks.isEmpty then
        (.error "No valid chunks created from documents", st)
      else
        match encodeAll cap (processStructures env.now (mergedStructures env)).all_chunks with
        | .error e => (.error ("Failed to create embeddings: " ++ e), st)
        | .ok embeddings =>
          match env.faiss_error with
          | some e => (.error ("Failed to build FAISS index: " ++ e), st)
          | none =>
            (.ok (),
              { global_chunks := (processStructures env.now (mergedStructures env)).all_chunks
                global_index := some (embeddings.map nenv.normalize)
                global_embed_model := some cap
                chunk_metadata := (processStructures env.now (mergedStructures env)).all_metadata
                folder_indices := (processStructures env.now (mergedStructures env)).fidx
                last_index_update := some env.now
                index_stats := (processStructures env.now (mergedStructures env)).stats })

/-- safe_rebuild (app_auth.py lines 822-829): run rebuild_index and
swallow any IndexBuildError, keeping the resulting state. -/
def safe_rebuild (nenv : NumEnv) (env : BuildEnv) (st : IndexState) : IndexState :=
  (rebuild_index nenv env st).2

-- ================= REBUILD SCHEDULER (DEBOUNCE) =================

/-- Discrete-time model of debounced_rebuild (app_auth.py lines
812-820): each notify call at time t cancels the pending timer, if
any, and arms a new one with deadline t + W. A pending timer whose
deadline lies strictly before the next notify has already fired one
build; the last pending timer always fires. The argument list holds
the notify times in nondecreasing order; the option holds the pending
deadline. Returns the number of builds triggered. -/
def debounceRun (W : Nat) : List Nat → Option Nat → Nat
  | [], none => 0
  | [], some _ => 1
  | t :: rest, none => debounceRun W rest (some (t + W))
  | t :: rest, some d => (if d < t then 1 else 0) + debounceRun W rest (some (t + W))

/-- Number of builds triggered by a sequence of notify times, starting
with no pending timer. -/
def buildCount (W : Nat) (ts : List Nat) : Nat := debounceRun W ts none

-- ================= RETRIEVAL =================

/-- Dot product of two vectors (np.dot on rows). -/
def dotS (a b : Vec) : Score := (List.zipWith (· * ·) a b).sum

/-- np.max over a similarity row (the code only applies it to rows of
folders with at least one chunk). -/
def maxS (l : List Score) : Score := l.foldl max (l.headD 0)

/-- Ascending comparison of positions by similarity value, ties by
position: the stable ascending order computed by np.argsort. -/
def ascRel (sims : List Score) (i j : Nat) : Prop :=
  sims.getD i 0 < sims.getD j 0 ∨ (sims.getD i 0 = sims.getD j 0 ∧ i ≤ j)

instance (sims : List Score) : DecidableRel (ascRel sims) := fun _ _ => by
  unfold ascRel; infer_instance

/-- np.argsort: the positions of the similarity row in stable ascending
order of value. -/
def argsortS (sims : List Score) : List Nat :=
  List.insertionSort (ascRel sims) (List.range sims.length)

/-- np.argsort(similarities)[::-1][:k] as in stage 2 of
retrieve_hierarchical: reverse the ascending order and take k. -/
def topIdx (sims : List Score) (k : Nat) : List Nat :=
  ((argsortS sims).reverse).take k
/-- Descending comparison of positions by similarity value with ties
preferring the position later in the original order: the order in
which stage 2 visits the chunks of a folder. -/
def descTie (sims : List Score) (i j : Nat) : Prop :=
  sims.getD j 0 < sims.getD i 0 ∨ (sims.getD i 0 = sims.getD j 0 ∧ j < i)

/-- The similarity row of a list of chunk positions: reconstruct each
stored vector by id and dot it with the query vector. -/
def simsOf (index : List Vec) (idxs : List Nat) (q : Vec) : List Score :=
  idxs.map (fun i => dotS (index.getD i []) q)

/-- Python dict lookup folder_indices[folder_name]: first binding of
the key, empty when absent. -/
def lookupAssoc (l : List (String × List Nat)) (f : String) : List Nat :=
  match l with
  | [] => []
  | (g, ps) :: rest => if g = f then ps else lookupAssoc rest f

/-- Comparison used by sorted(folder_scores.items(), key=score,
reverse=True): descending by score, stable on ties. -/
def folderRel (a b : String × Score) : Prop := b.2 ≤ a.2

instance : DecidableRel folderRel := fun _ _ => by
  unfold folderRel; infer_instance

/-- Stage 1 of retrieve_hierarchical (app_auth.py lines 852-866): score
every folder with at least one chunk by the maximum similarity over
its first 100 chunk vectors, and sort descending (stable). -/
def rankedFolders (index : List Vec) (fi : List (String × List Nat)) (q : Vec) :
    List (String × Score) :=
  List.insertionSort folderRel
    (fi.filterMap (fun p =>
      if p.2.isEmpty then none
      else some (p.1, maxS (simsOf index (p.2.take 100) q))))

/-- One element of the list returned by retrieve_hierarchical. -/
structure RetResult where
  chunk : List Char
  folder : String
  filename : String
  score : Score
deriving DecidableEq, Inhabited

/-- One iteration of the stage-2 inner loop: look up the global chunk
position, skip the chunk when its text was already emitted, otherwise
append the result row and remember the text. -/
def blockStep (chunks : List (List Char)) (metadata : List ChunkMeta)
    (idxs : List Nat) (sims : List Score)
    (acc : List RetResult × List (List Char)) (li : Nat) :
    List RetResult × List (List Char) :=
  let gi := idxs.getD li 0
  let ch := chunks.getD gi []
  if acc.2.contains ch then acc
  else
    let md := metadata.getD gi default
    (acc.1 ++ [⟨ch, md.folder, md.filename, sims.getD li 0⟩], acc.2 ++ [ch])

/-- The body of the stage-2 loop for one selected folder: rank its
chunks, take the top k, and append each chunk not seen before,
carrying the deduplication set. -/
def folderBlock (index : List Vec) (chunks : List (List Char)) (metadata : List ChunkMeta)
    (fi : List (String × List Nat)) (q : Vec) (kc : Nat)
    (seen : List (List Char)) (fname : String) :
    List RetResult × List (List Char) :=
  let idxs := lookupAssoc fi fname
  let sims := simsOf index idxs q
  (topIdx sims kc).foldl (blockStep chunks metadata idxs sims)
    (([] : List RetResult), seen)

/-- Stage 2 of retrieve_hierarchical (app_auth.py lines 868-898): visit
the selected folders in rank order, appending each folder block to the
result and threading the deduplication set. -/
def stage2 (index : List Vec) (chunks : List (List Char)) (metadata : List ChunkMeta)
    (fi : List (String × List Nat)) (q : Vec) (kc : Nat) :
    List (String × Score) → List (List Char) → List RetResult
  | [], _ => []
  | fp :: rest, seen =>
    let pr := folderBlock index chunks metadata fi q kc seen fp.1
    pr.1 ++ stage2 index chunks metadata fi q kc rest pr.2

/-- The try block of retrieve_hierarchical: embed the query (the one
step that can raise), normalize it, rank the folders and run stage 2. -/
def retrieve_core (nenv : NumEnv) (index : List Vec) (cap : EmbedCap)
    (chunks : List (List Char)) (metadata : List ChunkMeta)
    (fi : List (String × List Nat)) (q : List Char) (kf kc : Nat) :
    Except String (List RetResult) :=
  match cap q with
  | .error e => .error e
  | .ok qraw =>
    let qn := nenv.normalize qraw
    .ok (stage2 index chunks metadata fi qn kc ((rankedFolders index fi qn).take kf) [])

/-- retrieve_hierarchical (app_auth.py lines 833-905): empty when no
index or no model is published, empty when the try block raises,
otherwise the stage-2 result. -/
def retrieve_hierarchical (nenv : NumEnv) (st : IndexState) (q : List Char)
    (kf kc : Nat) : List RetResult :=
  match st.global_index, st.global_embed_model with
  | some index, some cap =>
    match retrieve_core nenv index cap st.global_chunks st.chunk_metadata
        st.folder_indices q kf kc with
    | .ok r => r
    | .error _ => []
  | _, _ => []

-- ================= SNAPSHOT WELL-FORMEDNESS =================

/-- Well-formedness of a published snapshot: chunk list, metadata list
and vector index have equal lengths, and every position filed under a
folder key is in range with metadata naming exactly that folder. -/
def snapshotWF (st : IndexState) : Prop :=
  st.global_chunks.length = st.chunk_metadata.length ∧
  (∀ vi, st.global_index = some vi → vi.length = st.global_chunks.length) ∧
  ∀ p ∈ st.folder_indices, ∀ i ∈ p.2,
    i < st.global_chunks.length ∧ (st.chunk_metadata.getD i default).folder = p.1
/-- Invariant of the build accumulator: chunks and metadata stay in
sync and every filed position is valid for its folder. -/
def accWF (acc : BuildAcc) : Prop :=
  acc.all_chunks.length = acc.all_metadata.length ∧
  ∀ p ∈ acc.fidx, ∀ i ∈ p.2,
    i < acc.all_chunks.length ∧ (acc.all_metadata.getD i default).folder = p.1

-- ================= CONCRETE STATES FOR WITNESSES =================

/-- An embedding capability that maps every text to the unit vector. -/
def capOne : EmbedCap := fun _ => .ok [1]

/-- A numeric environment whose normalization is the identity (the
concrete vectors below are already unit vectors in the model). -/
def nenvId : NumEnv := ⟨fun v => v⟩

/-- The initial state of the module globals before any build. -/
def emptySt : IndexState :=
  { global_chunks := []
    global_index := none
    global_embed_model := none
    chunk_metadata := []
    folder_indices := []
    last_index_update := none
    index_stats := ⟨0, 0, []⟩ }

/-- A snapshot with one folder holding two distinct chunks whose
vectors tie on similarity to every query. -/
def exSt3 : IndexState :=
  { global_chunks := [['a'], ['b']]
    global_index := some [[1], [1]]
    global_embed_model := some capOne
    chunk_metadata :=
      [⟨"documents_f", "f1.txt", "documents", 0⟩,
       ⟨"documents_f", "f2.txt", "documents", 0⟩]
    folder_indices := [("documents_f", [0, 1])]
    last_index_update := some 0
    index_stats := ⟨2, 2, [("documents_f", 2, 2)]⟩ }

/-- A snapshot with two folders: folder A outranks folder B, folder B
holds a chunk whose text duplicates a chunk of A plus one more chunk
whose score beats the second chunk of A. -/
def exSt10 : IndexState :=
  { global_chunks := [['x'], ['y'], ['x'], ['z']]
    global_index := some [[97], [50], [96], [90]]
    global_embed_model := some capOne
    chunk_metadata :=
      [⟨"A", "fa.txt", "documents", 0⟩, ⟨"A", "fa.txt", "documents", 0⟩,
       ⟨"B", "fb.txt", "documents", 0⟩, ⟨"B", "fb.txt", "documents", 0⟩]
    folder_indices := [("A", [0, 1]), ("B", [2, 3])]
    last_index_update := some 0
    index_stats := ⟨4, 2, [("A", 2, 1), ("B", 2, 1)]⟩ }

/-- A root with one file directly inside it and one category folder. -/
def exRoot9 : BaseFolder :=
  { present := true
    entries :=
      [.file "root.txt" (some ['r']),
       .dir "cat" [("a.txt", ['x'])]] }

/-- A build environment whose embedding model fails to load. -/
def exEnv4 : BuildEnv :=
  { docsRoot := { present := true, entries := [.dir "cat" [("a.txt", List.replicate 60 'a')]] }
    uploadRoot := { present := false, entries := [] }
    load_model := .error "x"
    faiss_error := none
    now := 7 }

/-- A build environment whose roots are both absent. -/
def exEnv6 : BuildEnv :=
  { docsRoot := { present := false, entries := [] }
    uploadRoot := { present := false, entries := [] }
    load_model := .ok capOne
    faiss_error := none
    now := 7 }

/-- A build environment for a small successful build. -/
def exEnv8 : BuildEnv :=
  { docsRoot := { present := true, entries := [.dir "cat" [("a.txt", List.replicate 60 'a')]] }
    uploadRoot := { present := false, entries := [] }
    load_model := .ok capOne
    faiss_error := none
    now := 7 }

/-- A whitespace-free text longer than CHUNK_SIZE. -/
def wText : List Char := List.replicate 350 'a'

/-- A text whose first slice ends in 30 whitespace characters, so the
stripped first fragment loses its entire overlap region. -/
def cexText : List Char :=
  List.replicate 270 'a' ++ List.replicate 30 ' ' ++ List.replicate 300 'b'

-- ================= HELPER LEMMAS =================

theorem debounceRun_burst (W : Nat) : ∀ (ts : List Nat) (t0 : Nat),
    List.Chain' (fun a b => a < b ∧ b ≤ a + W) (t0 :: ts) →
    debounceRun W ts (some (t0 + W)) = 1 := by
  intro ts
  induction ts with
  | nil => intro t0 _; rfl
  | cons t1 rest ih =>
    intro t0 hch
    rw [List.chain'_cons] at hch
    have hle : t1 ≤ t0 + W := hch.1.2
    show (if t0 + W < t1 then 1 else 0) + debounceRun W rest (some (t1 + W)) = 1
    rw [if_neg (by omega)]
    simpa using ih t1 hch.2

theorem debounceRun_pos (W : Nat) : ∀ (ts : List Nat) (d : Nat),
    1 ≤ debounceRun W ts (some d) := by
  intro ts
  induction ts with
  | nil => intro d; exact le_refl 1
  | cons t rest ih =>
    intro d
    show 1 ≤ (if d < t then 1 else 0) + debounceRun W rest (some (t + W))
    have := ih (t + W)
    omega

-- ================= CLAIM THEOREMS =================

/-- C2: retrieve_hierarchical never raises: when no index is published,
when no embedding model is published, or when the try block fails with
any exception (modelled as an error of retrieve_core), the caller
receives the empty list. -/
theorem retrieve_never_throws_returns_empty (nenv : NumEnv) (st : IndexState)
    (q : List Char) (kf kc : Nat)
    (h : st.global_index = none ∨ st.global_embed_model = none ∨
      (∀ index cap, st.global_index = some index → st.global_embed_model = some cap →
        ∃ e, retrieve_core nenv index cap st.global_chunks st.chunk_metadata
          st.folder_indices q kf kc = .error e)) :
    retrieve_hierarchical nenv st q kf kc = [] := by
  rcases hgi : st.global_index with _ | index <;>
    rcases hgm : st.global_embed_model with _ | cap <;>
      simp only [retrieve_hierarchical, hgi, hgm]
  rcases h with h | h | h
  · rw [hgi] at h; exact absurd h (by simp)
  · rw [hgm] at h; exact absurd h (by simp)
  · obtain ⟨e, he⟩ := h index cap hgi hgm
    rw [he]

/-- C2 witness: a query against the initial state returns the empty
list. -/
theorem retrieve_never_throws_returns_empty_witness :
    retrieve_hierarchical nenvId emptySt ['q'] 2 3 = [] :=
  retrieve_never_throws_returns_empty nenvId emptySt ['q'] 2 3 (Or.inl rfl)

/-- C4: when rebuild_index fails with an IndexBuildError, every
published field of the index state (chunks, vector index, metadata,
folder positions, statistics, last-update timestamp) is exactly what
it was before the build started. -/
theorem rebuild_failure_preserves_state (nenv : NumEnv) (env : BuildEnv)
    (st : IndexState) (e : String)
    (h : (rebuild_index nenv env st).1 = .error e) :
    (rebuild_index nenv env st).2 = st := by
  cases h1 : (mergedStructures env).isEmpty with
  | true => simp [rebuild_index, h1] at h
  | false =>
    rcases hm : env.load_model with e2 | cap
    · simp [rebuild_index, h1, hm]
    · cases h2 : (processStructures env.now (mergedStructures env)).all_chunks.isEmpty with
      | true => simp [rebuild_index, h1, hm, h2]
      | false =>
        rcases hw : encodeAll cap (processStructures env.now (mergedStructures env)).all_chunks
          with e2 | embs
        · simp [rebuild_index, h1, hm, h2, hw]
        · rcases hf : env.faiss_error with _ | e2
          · simp [rebuild_index, h1, hm, h2, hw, hf] at h
          · simp [rebuild_index, h1, hm, h2, hw, hf]

/-- C4 witness: a build whose embedding model fails to load reports the
failure and leaves the prior state untouched. -/
theorem rebuild_failure_preserves_state_witness :
    (rebuild_index nenvId exEnv4 exSt10).1 = .error "Failed to load embedding model: x" ∧
    (rebuild_index nenvId exEnv4 exSt10).2 = exSt10 :=
  ⟨rfl, rebuild_failure_preserves_state nenvId exEnv4 exSt10
    "Failed to load embedding model: x" rfl⟩

/-- C6: when scanning every configured root yields no documents, the
build succeeds and publishes the explicit empty snapshot (no chunks,
no vector index, no model, zeroed statistics), and retrieval against
that snapshot returns the empty list without error. -/
theorem empty_corpus_empty_snapshot (nenv : NumEnv) (env : BuildEnv) (st : IndexState)
    (hd : scan_folder_structure env.docsRoot = [])
    (hu : scan_folder_structure env.uploadRoot = []) :
    rebuild_index nenv env st = (.ok (), emptyPublishedState st) ∧
    (∀ q kf kc, retrieve_hierarchical nenv (emptyPublishedState st) q kf kc = []) := by
  constructor
  · have h1 : (mergedStructures env).isEmpty = true := by
      unfold mergedStructures; rw [hd, hu]; rfl
    unfold rebuild_index; rw [if_pos h1]
  · intro q kf kc; rfl

/-- C6 witness: rebuilding with both roots absent yields the empty
snapshot and empty retrieval. -/
theorem empty_corpus_empty_snapshot_witness :
    rebuild_index nenvId exEnv6 emptySt = (.ok (), emptyPublishedState emptySt) ∧
    (∀ q kf kc, retrieve_hierarchical nenvId (emptyPublishedState emptySt) q kf kc = []) :=
  empty_corpus_empty_snapshot nenvId exEnv6 emptySt rfl rfl

/-- C7: in the debounce model of debounced_rebuild, a nonempty burst of
notify calls in which each call arrives within the debounce window of
the previous one triggers exactly one build; two notify calls
separated by more than the window trigger exactly two builds; and a
nonempty sequence of notify calls always triggers at least one build
(no notify is silently dropped). -/
theorem debounce_coalesce_and_no_drop :
    (∀ (W : Nat) (ts : List Nat), ts ≠ [] →
      List.Chain' (fun a b => a < b ∧ b ≤ a + W) ts → buildCount W ts = 1) ∧
    (∀ (W t1 t2 : Nat), t1 + W < t2 → buildCount W [t1, t2] = 2) ∧
    (∀ (W : Nat) (ts : List Nat), ts ≠ [] → 1 ≤ buildCount W ts) := by
  refine ⟨?_, ?_, ?_⟩
  · intro W ts hne hch
    cases ts with
    | nil => exact absurd rfl hne
    | cons t0 rest => exact debounceRun_burst W rest t0 hch
  · intro W t1 t2 h
    show (if t1 + W < t2 then 1 else 0) + debounceRun W [] (some (t2 + W)) = 2
    rw [if_pos h]; rfl
  · intro W ts hne
    cases ts with
    | nil => exact absurd rfl hne
    | cons t0 rest => exact debounceRun_pos W rest (t0 + W)

/-- C7 witness: with the configured 2-second window, three notify calls
at times 0, 1, 2 trigger one build, notify calls at 0 and 3 trigger
two builds, and a single notify triggers at least one build. -/
theorem debounce_coalesce_and_no_drop_witness :
    buildCount REBUILD_DEBOUNCE [0, 1, 2] = 1 ∧
    buildCount REBUILD_DEBOUNCE [0, 3] = 2 ∧
    1 ≤ buildCount REBUILD_DEBOUNCE [5] :=
  ⟨debounce_coalesce_and_no_drop.1 REBUILD_DEBOUNCE [0, 1, 2] (by decide)
    (by norm_num [List.chain'_cons, REBUILD_DEBOUNCE]),
   debounce_coalesce_and_no_drop.2.1 REBUILD_DEBOUNCE 0 3 (by decide),
   debounce_coalesce_and_no_drop.2.2 REBUILD_DEBOUNCE [5] (by decide)⟩

/-- C9: when a root contains at least one subdirectory, every folder of
the scan result is literally a subdirectory entry of the root with its
loaded documents, so files lying directly in the root are never
assigned to any folder, and the synthetic general grouping never
applies in that mode. -/
theorem scan_hierarchical_ignores_root_files (b : BaseFolder)
    (hp : b.present = true) (hd : b.entries.any FsEntry.isDirE = true) :
    (∀ p ∈ scan_folder_structure b, FsEntry.dir p.1 p.2 ∈ b.entries ∧ p.2 ≠ []) ∧
    scan_folder_structure b = b.entries.filterMap (fun e =>
      match e with
      | .dir n docs => if docs.isEmpty then none else some (n, docs)
      | _ => none) := by
  have hscan : scan_folder_structure b = b.entries.filterMap (fun e =>
      match e with
      | .dir n docs => if docs.isEmpty then none else some (n, docs)
      | _ => none) := by
    unfold scan_folder_structure
    rw [hp, hd]
    rfl
  refine ⟨?_, hscan⟩
  intro p hp2
  rw [hscan] at hp2
  obtain ⟨e, he, hfe⟩ := List.mem_filterMap.mp hp2
  cases e with
  | file n c => simp at hfe
  | dir n docs =>
    by_cases hne : docs.isEmpty = true
    · simp [hne] at hfe
    · simp only [hne] at hfe
      rw [if_neg (by simp [hne])] at hfe
      cases hfe
      exact ⟨he, by simpa using hne⟩

/-- C9 witness: a root with a file directly inside it and one category
folder indexes only the folder contents. -/
theorem scan_hierarchical_ignores_root_files_witness :
    (∀ p ∈ scan_folder_structure exRoot9, FsEntry.dir p.1 p.2 ∈ exRoot9.entries ∧ p.2 ≠ []) ∧
    scan_folder_structure exRoot9 = exRoot9.entries.filterMap (fun e =>
      match e with
      | .dir n docs => if docs.isEmpty then none else some (n, docs)
      | _ => none) :=
  scan_hierarchical_ignores_root_files exRoot9 rfl rfl

theorem dropWhile_eq_self_of_all (p : Char → Bool) (l : List Char)
    (h : ∀ c ∈ l, p c = false) : l.dropWhile p = l := by
  cases l with
  | nil => rfl
  | cons a l =>
    rw [List.dropWhile_cons_of_neg]
    simp [h a (by simp)]

theorem pyStrip_eq_self (l : List Char) (h : ∀ c ∈ l, isPySpace c = false) :
    pyStrip l = l := by
  unfold pyStrip
  rw [dropWhile_eq_self_of_all _ _ h]
  rw [dropWhile_eq_self_of_all _ _ (fun c hc => h c (by simpa using hc))]
  exact List.reverse_reverse l

theorem rawChunks_noSpace (t : List Char) (h : ∀ c ∈ t, isPySpace c = false) :
    rawChunks t = (List.range (numSlices t.length)).map (sliceAt t) := by
  unfold rawChunks
  apply List.map_congr_left
  intro i _
  exact pyStrip_eq_self _
    (fun c hc => h c (List.mem_of_mem_drop (List.mem_of_mem_take hc)))

theorem sliceAt_length (t : List Char) (i : Nat) :
    (sliceAt t i).length = min CHUNK_SIZE (t.length - i * STRIDE) := by
  unfold sliceAt
  rw [List.length_take, List.length_drop]

theorem lt_numSlices_iff (L i : Nat) : i < numSlices L ↔ i * STRIDE < L := by
  have h270 : numSlices L = (L + 269) / 270 := by
    unfold numSlices STRIDE CHUNK_SIZE CHUNK_OVERLAP
    norm_num
  have hS : STRIDE = 270 := rfl
  rw [h270, hS, Nat.lt_iff_add_one_le, Nat.le_div_iff_mul_le (by norm_num : 0 < 270)]
  omega

theorem sliceAt_consec (t : List Char) (j : Nat) :
    (sliceAt t j).drop (CHUNK_SIZE - CHUNK_OVERLAP) = (sliceAt t (j + 1)).take CHUNK_OVERLAP := by
  simp only [sliceAt, STRIDE, CHUNK_SIZE, CHUNK_OVERLAP]
  rw [List.drop_take, List.drop_drop, List.take_take]
  norm_num
  congr 1
  ring_nf

theorem getD_map_range {α : Type} (n : Nat) (f : Nat → α) (i : Nat) (d : α) (h : i < n) :
    ((List.range n).map f).getD i d = f i := by
  rw [List.getD_eq_getElem _ _ (by simpa using h)]
  simp

/-- C5 (as stated, refuted): a text of stripped length 600 whose first
slice ends in 30 whitespace characters yields three fragments, and the
first two consecutive fragments do not overlap by CHUNK_OVERLAP
characters, because each slice is stripped after slicing. -/
theorem chunk_overlap_counterexample :
    CHUNK_SIZE < (pyStrip cexText).length ∧
    (chunk_text cexText).length = 3 ∧
    ¬ overlapsBy ((chunk_text cexText).getD 0 []) ((chunk_text cexText).getD 1 [])
      CHUNK_OVERLAP := by decide

/-- C5 (amended): for text whose trimmed form is free of whitespace
characters (so that the per-slice strip removes nothing and the
minimum-length filter can only drop the final slice) and longer than
CHUNK_SIZE, each pair of consecutive fragments returned by chunk_text
overlaps by exactly CHUNK_OVERLAP characters. -/
theorem chunk_overlap_amended (text : List Char)
    (hns : ∀ c ∈ text, isPySpace c = false)
    (hlen : CHUNK_SIZE < text.length)
    (j : Nat) (hj : j + 1 < (chunk_text text).length) :
    overlapsBy ((chunk_text text).getD j []) ((chunk_text text).getD (j + 1) [])
      CHUNK_OVERLAP := by
  have hC : CHUNK_SIZE = 300 := rfl
  have hO : CHUNK_OVERLAP = 30 := rfl
  have hS : STRIDE = 270 := rfl
  have h0 : pyStrip text = text := pyStrip_eq_self text hns
  have hne : text ≠ [] := by
    intro h
    rw [h] at hlen
    simp [hC] at hlen
  have hie : text.isEmpty = false := by
    cases text with
    | nil => exact absurd rfl hne
    | cons a l => rfl
  set L := text.length with hL
  set n := numSlices L with hn
  have htext_raw : rawChunks text = (List.range n).map (sliceAt text) :=
    rawChunks_noSpace text hns
  have hlen_slice : ∀ i, (sliceAt text i).length = min 300 (L - i * 270) := by
    intro i
    rw [sliceAt_length, hC, hS]
  have h1n : 1 < n := by
    have := (lt_numSlices_iff L 1).mpr (by rw [hS]; omega)
    omega
  set m := n - 1 with hm
  have hnm : n = m + 1 := by omega
  have hkeep_lt : ∀ i, i < m → 50 < (sliceAt text i).length := by
    intro i hi
    have hi1 : (i + 1) * STRIDE < L := (lt_numSlices_iff L (i + 1)).mp (by omega)
    rw [hS] at hi1
    rw [hlen_slice i]
    omega
  have hchunks : (rawChunks text).filter (fun c => 50 < c.length) =
      (List.range m).map (sliceAt text) ++
        ((sliceAt text m :: []).filter (fun c => 50 < c.length)) := by
    rw [htext_raw, hnm, List.range_succ, List.map_append, List.filter_append]
    congr 1
    apply List.filter_eq_self.mpr
    intro c hc
    obtain ⟨i, hi, rfl⟩ := List.mem_map.mp hc
    simpa using hkeep_lt i (List.mem_range.mp hi)
  have hm_ne : (List.range m).map (sliceAt text) ≠ [] := by
    simp [List.range_eq_nil]
    omega
  have hct : chunk_text text = (rawChunks text).filter (fun c => 50 < c.length) := by
    unfold chunk_text
    simp only [h0, hie, Bool.false_eq_true, if_false]
    have : ((rawChunks text).filter (fun c => 50 < c.length)).isEmpty = false := by
      rw [hchunks]
      cases hcase : (List.range m).map (sliceAt text) with
      | nil => exact absurd hcase hm_ne
      | cons a l => rfl
    simp only [this, Bool.false_eq_true, if_false]
  rw [hct, hchunks] at hj ⊢
  by_cases hp : 50 < (sliceAt text m).length
  · have hfil : (sliceAt text m :: []).filter (fun c => 50 < c.length) = [sliceAt text m] := by
      simp [hp]
    rw [hfil] at hj ⊢
    have hrecomb : (List.range m).map (sliceAt text) ++ [sliceAt text m] =
        (List.range n).map (sliceAt text) := by
      rw [hnm, List.range_succ, List.map_append]
      rfl
    rw [hrecomb] at hj ⊢
    have hj1 : j + 1 < n := by simpa using hj
    have hgj : ((List.range n).map (sliceAt text)).getD j [] = sliceAt text j :=
      getD_map_range n (sliceAt text) j [] (by omega)
    have hgj1 : ((List.range n).map (sliceAt text)).getD (j + 1) [] = sliceAt text (j + 1) :=
      getD_map_range n (sliceAt text) (j + 1) [] hj1
    rw [hgj, hgj1]
    have hkept : 50 < (sliceAt text (j + 1)).length := by
      rcases Nat.lt_or_ge (j + 1) m with h | h
      · exact hkeep_lt (j + 1) h
      · have : j + 1 = m := by omega
        rw [this]
        exact hp
    have hband : (j + 1) * 270 + 50 < L := by
      rw [hlen_slice (j + 1)] at hkept
      omega
    have hsl_len : (sliceAt text j).length = 300 := by
      rw [hlen_slice j]
      omega
    refine ⟨?_, ?_, ?_⟩
    · rw [hsl_len, hO]
      exact sliceAt_consec text j
    · rw [hsl_len, hO]
      omega
    · rw [hO]
      omega
  · have hfil : (sliceAt text m :: []).filter (fun c => 50 < c.length) = [] := by
      simp [hp]
    rw [hfil, List.append_nil] at hj ⊢
    have hj1 : j + 1 < m := by simpa using hj
    have hgj : ((List.range m).map (sliceAt text)).getD j [] = sliceAt text j :=
      getD_map_range m (sliceAt text) j [] (by omega)
    have hgj1 : ((List.range m).map (sliceAt text)).getD (j + 1) [] = sliceAt text (j + 1) :=
      getD_map_range m (sliceAt text) (j + 1) [] hj1
    rw [hgj, hgj1]
    have hkept : 50 < (sliceAt text (j + 1)).length := hkeep_lt (j + 1) hj1
    have hband : (j + 1) * 270 + 50 < L := by
      rw [hlen_slice (j + 1)] at hkept
      omega
    have hsl_len : (sliceAt text j).length = 300 := by
      rw [hlen_slice j]
      omega
    refine ⟨?_, ?_, ?_⟩
    · rw [hsl_len, hO]
      exact sliceAt_consec text j
    · rw [hsl_len, hO]
      omega
    · rw [hO]
      omega

/-- C5 witness: a whitespace-free text of 350 characters splits into
two fragments whose overlap is exactly CHUNK_OVERLAP characters. -/
theorem chunk_overlap_amended_witness :
    (∀ c ∈ wText, isPySpace c = false) ∧ CHUNK_SIZE < wText.length ∧
    0 + 1 < (chunk_text wText).length ∧
    overlapsBy ((chunk_text wText).getD 0 []) ((chunk_text wText).getD 1 [])
      CHUNK_OVERLAP :=
  ⟨by decide, by decide, by decide,
    chunk_overlap_amended wText (by decide) (by decide) 0 (by decide)⟩


theorem ascRel_total (sims : List Score) : ∀ i j, ascRel sims i j ∨ ascRel sims j i := by
  intro i j
  unfold ascRel
  rcases lt_trichotomy (sims.getD i 0) (sims.getD j 0) with h | h | h
  · exact Or.inl (Or.inl h)
  · rcases Nat.le_total i j with h2 | h2
    · exact Or.inl (Or.inr ⟨h, h2⟩)
    · exact Or.inr (Or.inr ⟨h.symm, h2⟩)
  · exact Or.inr (Or.inl h)

theorem ascRel_trans (sims : List Score) :
    ∀ i j k, ascRel sims i j → ascRel sims j k → ascRel sims i k := by
  intro i j k hij hjk
  unfold ascRel at hij hjk ⊢
  rcases hij with h1 | ⟨h1, h1b⟩ <;> rcases hjk with h2 | ⟨h2, h2b⟩
  · exact Or.inl (lt_trans h1 h2)
  · exact Or.inl (lt_of_lt_of_le h1 (le_of_eq h2))
  · exact Or.inl (lt_of_le_of_lt (le_of_eq h1) h2)
  · exact Or.inr ⟨h1.trans h2, le_trans h1b h2b⟩

theorem argsortS_perm (sims : List Score) :
    List.Perm (argsortS sims) (List.range sims.length) :=
  List.perm_insertionSort _ _

theorem argsortS_sorted (sims : List Score) :
    List.Sorted (ascRel sims) (argsortS sims) := by
  haveI : IsTotal Nat (ascRel sims) := ⟨ascRel_total sims⟩
  haveI : IsTrans Nat (ascRel sims) := ⟨ascRel_trans sims⟩
  exact List.sorted_insertionSort _ _

theorem argsortS_rev_pairwise (sims : List Score) :
    List.Pairwise (descTie sims) (argsortS sims).reverse := by
  have hasc : List.Pairwise (fun i j => ascRel sims j i) (argsortS sims).reverse :=
    List.pairwise_reverse.mpr (argsortS_sorted sims)
  have hnd : (argsortS sims).Nodup := ((argsortS_perm sims).nodup_iff).mpr (List.nodup_range _)
  have hndr : (argsortS sims).reverse.Nodup := by simpa using hnd
  refine (hasc.and hndr).imp ?_
  rintro a b ⟨hab, hne⟩
  unfold ascRel at hab
  unfold descTie
  rcases hab with h | ⟨h, hba⟩
  · exact Or.inl h
  · exact Or.inr ⟨h.symm, lt_of_le_of_ne hba (fun hc => hne hc.symm)⟩

theorem topIdx_lt (sims : List Score) (k : Nat) : ∀ i ∈ topIdx sims k, i < sims.length := by
  intro i hi
  have h2 : i ∈ argsortS sims := List.mem_reverse.mp (List.mem_of_mem_take hi)
  exact List.mem_range.mp ((argsortS_perm sims).mem_iff.mp h2)

theorem topIdx_nodup (sims : List Score) (k : Nat) : (topIdx sims k).Nodup := by
  have hnd : (argsortS sims).Nodup := ((argsortS_perm sims).nodup_iff).mpr (List.nodup_range _)
  have hndr : (argsortS sims).reverse.Nodup := by simpa using hnd
  exact hndr.sublist (List.take_sublist _ _)

theorem topIdx_pairwise (sims : List Score) (k : Nat) :
    List.Pairwise (descTie sims) (topIdx sims k) :=
  (argsortS_rev_pairwise sims).sublist (List.take_sublist _ _)

theorem topIdx_length (sims : List Score) (k : Nat) :
    (topIdx sims k).length = min k sims.length := by
  unfold topIdx
  rw [List.length_take, List.length_reverse, (argsortS_perm sims).length_eq,
    List.length_range]

theorem topIdx_dominates (sims : List Score) (k : Nat) :
    ∀ i ∈ topIdx sims k, ∀ j, j < sims.length → j ∉ topIdx sims k → descTie sims i j := by
  intro i hi j hj hnj
  have hjR : j ∈ (argsortS sims).reverse := by
    rw [List.mem_reverse]
    exact (argsortS_perm sims).mem_iff.mpr (List.mem_range.mpr hj)
  have hsplit : (argsortS sims).reverse =
      ((argsortS sims).reverse.take k) ++ ((argsortS sims).reverse.drop k) :=
    (List.take_append_drop _ _).symm
  have hjdrop : j ∈ (argsortS sims).reverse.drop k := by
    rcases List.mem_append.mp (hsplit ▸ hjR) with h | h
    · exact absurd h hnj
    · exact h
  have hpairAll := argsortS_rev_pairwise sims
  rw [hsplit] at hpairAll
  exact (List.pairwise_append.mp hpairAll).2.2 i hi j hjdrop

/-- C3 (as stated, refuted): two distinct chunks of one folder whose
vectors tie on similarity to the query. With topChunksPerFolder = 1
the code returns the chunk later in the original order, not the
earlier one the claim promises. -/
theorem retrieve_tiebreak_counterexample :
    retrieve_hierarchical nenvId exSt3 ['q'] 1 1 =
      [⟨['b'], "documents_f", "f2.txt", 1⟩] ∧
    retrieve_hierarchical nenvId exSt3 ['q'] 1 1 ≠
      [⟨['a'], "documents_f", "f1.txt", 1⟩] := by decide

/-- C3 (amended): within a selected folder, the positions visited by
stage 2 (topIdx over the similarity row of the folder, before
cross-folder deduplication) are exactly the topChunksPerFolder
positions of highest similarity, in descending score order, with ties
broken by preferring the position later in the original chunk order
(the ascending stable argsort is reversed). -/
theorem topIdx_exact_topk_desc (sims : List Score) (k : Nat) :
    (topIdx sims k).length = min k sims.length ∧
    (topIdx sims k).Nodup ∧
    (∀ i ∈ topIdx sims k, i < sims.length) ∧
    List.Pairwise (descTie sims) (topIdx sims k) ∧
    (∀ i ∈ topIdx sims k, ∀ j, j < sims.length → j ∉ topIdx sims k → descTie sims i j) :=
  ⟨topIdx_length sims k, topIdx_nodup sims k, topIdx_lt sims k,
    topIdx_pairwise sims k, topIdx_dominates sims k⟩

/-- C3 witness: on the similarity row 5, 7, 7 with k = 2 the selected
positions are 2 and 1, and position 2 dominates the unselected
position 0. -/
theorem topIdx_exact_topk_desc_witness :
    (topIdx [5, 7, 7] 2).length = min 2 3 ∧
    descTie [5, 7, 7] 2 0 :=
  ⟨(topIdx_exact_topk_desc [5, 7, 7] 2).1,
    (topIdx_exact_topk_desc [5, 7, 7] 2).2.2.2.2 2 (by decide) 0 (by decide) (by decide)⟩


theorem assocAppend_cases (l : List (String × List Nat)) (f : String) (v : Nat) :
    ∀ p ∈ assocAppend l f v,
      p ∈ l ∨ (p.1 = f ∧ p.2 = [v]) ∨ ∃ qs, (p.1, qs) ∈ l ∧ p.1 = f ∧ p.2 = qs ++ [v] := by
  induction l with
  | nil =>
    intro p hp
    simp only [assocAppend, List.mem_singleton] at hp
    exact Or.inr (Or.inl ⟨by rw [hp], by rw [hp]⟩)
  | cons hd tl ih =>
    intro p hp
    obtain ⟨g, qs⟩ := hd
    simp only [assocAppend] at hp
    by_cases hgf : g = f
    · rw [if_pos hgf] at hp
      rcases List.mem_cons.mp hp with h | h
      · exact Or.inr (Or.inr ⟨qs, by rw [h]; exact List.mem_cons_self _ _,
          by rw [h]; exact hgf, by rw [h]⟩)
      · exact Or.inl (List.mem_cons_of_mem _ h)
    · rw [if_neg hgf] at hp
      rcases List.mem_cons.mp hp with h | h
      · exact Or.inl (by rw [h]; exact List.mem_cons_self _ _)
      · rcases ih p h with h2 | h2 | ⟨qs2, hq1, hq2, hq3⟩
        · exact Or.inl (List.mem_cons_of_mem _ h2)
        · exact Or.inr (Or.inl h2)
        · exact Or.inr (Or.inr ⟨qs2, List.mem_cons_of_mem _ hq1, hq2, hq3⟩)

theorem getD_append_lt {α : Type} [Inhabited α] (l : List α) (m : α) (i : Nat)
    (h : i < l.length) : (l ++ [m]).getD i default = l.getD i default := by
  rw [List.getD_eq_getElem _ _ (by simp; omega), List.getD_eq_getElem _ _ h,
    List.getElem_append_left h]

theorem getD_append_self {α : Type} [Inhabited α] (l : List α) (m : α) :
    (l ++ [m]).getD l.length default = m := by
  rw [List.getD_eq_getElem _ _ (by simp)]
  simp

theorem addChunk_accWF (folder fname base : String) (ts : Nat) (acc : BuildAcc)
    (c : List Char) (h : accWF acc) : accWF (addChunk folder fname base ts acc c) := by
  obtain ⟨hlen, hfold⟩ := h
  constructor
  · simp [addChunk, hlen]
  · intro p hp i hi
    simp only [addChunk] at hp ⊢
    rcases assocAppend_cases acc.fidx folder acc.all_chunks.length p hp with
      hc | hc | ⟨qs, hq1, hq2, hq3⟩
    · have hold := hfold p hc i hi
      refine ⟨by simp; omega, ?_⟩
      rw [getD_append_lt _ _ _ (by omega)]
      exact hold.2
    · rw [hc.2] at hi
      rcases List.mem_singleton.mp hi with rfl
      refine ⟨by simp, ?_⟩
      rw [hlen, getD_append_self]
      exact hc.1.symm
    · rw [hq3] at hi
      rcases List.mem_append.mp hi with hin | hin
      · have hold := hfold (p.1, qs) hq1 i hin
        refine ⟨by simp; omega, ?_⟩
        rw [getD_append_lt _ _ _ (by omega)]
        exact hold.2
      · rcases List.mem_singleton.mp hin with rfl
        refine ⟨by simp, ?_⟩
        rw [hlen, getD_append_self]
        exact hq2.symm

theorem foldl_preserves {α β : Type} (P : α → Prop) (f : α → β → α)
    (h : ∀ a b, P a → P (f a b)) : ∀ (l : List β) (a : α), P a → P (l.foldl f a) := by
  intro l
  induction l with
  | nil => intro a ha; exact ha
  | cons b tl ih => intro a ha; exact ih (f a b) (h a b ha)

theorem accWF_stats (acc : BuildAcc) (s : IndexStats) (h : accWF acc) :
    accWF { acc with stats := s } := h

theorem processStructures_accWF (ts : Nat)
    (structs : List (String × List (String × List Char) × String)) :
    accWF (processStructures ts structs) := by
  apply foldl_preserves accWF (processFolder ts) ?step structs buildAcc0 ?init
  case step =>
    intro a b ha
    have h2 : accWF (b.2.1.foldl (processDoc b.1 b.2.2 ts) a) := by
      apply foldl_preserves accWF _ ?docstep _ _ ha
      case docstep =>
        intro a2 d ha2
        exact foldl_preserves accWF _ (fun a3 c ha3 => addChunk_accWF _ _ _ _ _ _ ha3)
          (chunk_text d.2) a2 ha2
    exact accWF_stats _ _ h2
  case init =>
    refine ⟨rfl, ?_⟩
    intro p hp
    simp [buildAcc0] at hp

theorem encodeAll_length (cap : EmbedCap) :
    ∀ (cs : List (List Char)) (vs : List Vec),
      encodeAll cap cs = .ok vs → vs.length = cs.length := by
  intro cs
  induction cs with
  | nil =>
    intro vs h
    simp only [encodeAll] at h
    cases h
    rfl
  | cons c tl ih =>
    intro vs h
    simp only [encodeAll] at h
    rcases hc : cap c with e | v
    · rw [hc] at h
      simp at h
    · rw [hc] at h
      rcases ht : encodeAll cap tl with e2 | vs2
      · rw [ht] at h
        simp at h
      · rw [ht] at h
        simp only [Except.ok.injEq] at h
        rw [← h]
        simp [ih vs2 ht]

/-- C8: every snapshot published by a successful build is well-formed:
the chunk list, the metadata list and the vector index have the same
length, every position filed under a folder key is a valid index whose
metadata names exactly that folder, and the vector index holds the
entries in the same order as the chunk list: it is exactly the
row-normalization of the embeddings the published model produces for
the published chunk list, one vector per chunk, in order. -/
theorem rebuild_success_snapshot_wf (nenv : NumEnv) (env : BuildEnv) (st : IndexState)
    (h : (rebuild_index nenv env st).1 = .ok ()) :
    snapshotWF (rebuild_index nenv env st).2 ∧
    (∀ vi, (rebuild_index nenv env st).2.global_index = some vi →
      ∃ cap embs,
        (rebuild_index nenv env st).2.global_embed_model = some cap ∧
        encodeAll cap (rebuild_index nenv env st).2.global_chunks = .ok embs ∧
        vi = embs.map nenv.normalize) := by
  cases h1 : (mergedStructures env).isEmpty with
  | true =>
    simp only [rebuild_index, h1, if_true]
    refine ⟨⟨rfl, ?_, ?_⟩, ?_⟩
    · intro vi hvi
      simp [emptyPublishedState] at hvi
    · intro p hp
      simp [emptyPublishedState] at hp
    · intro vi hvi
      simp [emptyPublishedState] at hvi
  | false =>
    rcases hm : env.load_model with e2 | cap
    · simp [rebuild_index, h1, hm] at h
    · cases h2 : (processStructures env.now (mergedStructures env)).all_chunks.isEmpty with
      | true => simp [rebuild_index, h1, hm, h2] at h
      | false =>
        rcases hw : encodeAll cap (processStructures env.now (mergedStructures env)).all_chunks
          with e2 | embs
        · simp [rebuild_index, h1, hm, h2, hw] at h
        · rcases hf : env.faiss_error with _ | e2
          · simp only [rebuild_index, h1, hm, h2, hw, hf]
            simp only [Bool.false_eq_true, if_false]
            obtain ⟨hlen, hfold⟩ := processStructures_accWF env.now (mergedStructures env)
            refine ⟨⟨hlen, ?_, ?_⟩, ?_⟩
            · intro vi hvi
              simp only [Option.some.injEq] at hvi
              rw [← hvi]
              simp [encodeAll_length cap _ embs hw]
            · intro p hp i hi
              exact hfold p hp i hi
            · intro vi hvi
              simp only [Option.some.injEq] at hvi
              exact ⟨cap, embs, rfl, hw, hvi.symm⟩
          · simp [rebuild_index, h1, hm, h2, hw, hf] at h

/-- C8 witness: a small successful build over one folder with one
document produces a well-formed snapshot whose vector index is the
normalized embedding of each chunk in chunk order. -/
theorem rebuild_success_snapshot_wf_witness :
    (rebuild_index nenvId exEnv8 emptySt).1 = .ok () ∧
    (snapshotWF (rebuild_index nenvId exEnv8 emptySt).2 ∧
      (∀ vi, (rebuild_index nenvId exEnv8 emptySt).2.global_index = some vi →
        ∃ cap embs,
          (rebuild_index nenvId exEnv8 emptySt).2.global_embed_model = some cap ∧
          encodeAll cap (rebuild_index nenvId exEnv8 emptySt).2.global_chunks = .ok embs ∧
          vi = embs.map nenvId.normalize)) :=
  ⟨rfl, rebuild_success_snapshot_wf nenvId exEnv8 emptySt rfl⟩

theorem lookupAssoc_mem (fi : List (String × List Nat)) (f : String)
    (h : lookupAssoc fi f ≠ []) : (f, lookupAssoc fi f) ∈ fi := by
  induction fi with
  | nil => simp [lookupAssoc] at h
  | cons hd tl ih =>
    obtain ⟨g, ps⟩ := hd
    simp only [lookupAssoc] at h ⊢
    by_cases hgf : g = f
    · rw [if_pos hgf] at h ⊢
      subst hgf
      exact List.mem_cons_self _ _
    · rw [if_neg hgf] at h ⊢
      exact List.mem_cons_of_mem _ (ih h)

theorem blockStep_foldl_folder (chunks : List (List Char)) (metadata : List ChunkMeta)
    (idxs : List Nat) (sims : List Score) (fname : String)
    (hfold : ∀ li, li < idxs.length → (metadata.getD (idxs.getD li 0) default).folder = fname) :
    ∀ (lis : List Nat), (∀ li ∈ lis, li < idxs.length) →
      ∀ (acc : List RetResult × List (List Char)), (∀ r ∈ acc.1, r.folder = fname) →
        ∀ r ∈ (lis.foldl (blockStep chunks metadata idxs sims) acc).1, r.folder = fname := by
  intro lis
  induction lis with
  | nil => intro _ acc hacc r hr; exact hacc r hr
  | cons li tl ih =>
    intro hlt acc hacc
    apply ih (fun x hx => hlt x (List.mem_cons_of_mem _ hx))
    intro r hr
    simp only [blockStep] at hr
    by_cases hc : acc.2.contains (chunks.getD (idxs.getD li 0) []) = true
    · rw [if_pos hc] at hr
      exact hacc r hr
    · rw [if_neg hc] at hr
      rcases List.mem_append.mp hr with h | h
      · exact hacc r h
      · rcases List.mem_singleton.mp h with rfl
        exact hfold li (hlt li (List.mem_cons_self _ _))

theorem folderBlock_folder (index : List Vec) (chunks : List (List Char))
    (metadata : List ChunkMeta) (fi : List (String × List Nat)) (q : Vec) (kc : Nat)
    (seen : List (List Char)) (fname : String)
    (hwf : ∀ p ∈ fi, ∀ i ∈ p.2, (metadata.getD i default).folder = p.1) :
    ∀ r ∈ (folderBlock index chunks metadata fi q kc seen fname).1, r.folder = fname := by
  intro r hr
  simp only [folderBlock] at hr
  rcases hidxs : lookupAssoc fi fname with _ | ⟨i0, irest⟩
  · rw [hidxs] at hr
    simp [simsOf, topIdx, argsortS, List.insertionSort] at hr
  · have hne : lookupAssoc fi fname ≠ [] := by rw [hidxs]; simp
    have hmem := lookupAssoc_mem fi fname hne
    refine blockStep_foldl_folder chunks metadata (lookupAssoc fi fname)
      (simsOf index (lookupAssoc fi fname) q) fname ?_ (topIdx _ kc) ?_ _ ?_ r hr
    · intro li hli
      have : (lookupAssoc fi fname).getD li 0 ∈ lookupAssoc fi fname := by
        rw [List.getD_eq_getElem _ _ hli]
        exact List.getElem_mem hli
      exact hwf _ hmem _ this
    · intro li hli
      have := topIdx_lt (simsOf index (lookupAssoc fi fname) q) kc li hli
      simpa [simsOf] using this
    · intro r2 hr2
      simp at hr2

theorem stage2_blocks (index : List Vec) (chunks : List (List Char))
    (metadata : List ChunkMeta) (fi : List (String × List Nat)) (q : Vec) (kc : Nat)
    (hwf : ∀ p ∈ fi, ∀ i ∈ p.2, (metadata.getD i default).folder = p.1) :
    ∀ (tops : List (String × Score)) (seen : List (List Char)),
      ∃ blocks : List (List RetResult),
        stage2 index chunks metadata fi q kc tops seen = blocks.flatten ∧
        blocks.length = tops.length ∧
        ∀ bi (hbi : bi < blocks.length), ∀ r ∈ blocks.get ⟨bi, hbi⟩,
          r.folder = (tops.getD bi ("", 0)).1 := by
  intro tops
  induction tops with
  | nil =>
    intro seen
    exact ⟨[], rfl, rfl, by intro bi hbi; simp at hbi⟩
  | cons fp rest ih =>
    intro seen
    obtain ⟨blocks, h1, h2, h3⟩ := ih (folderBlock index chunks metadata fi q kc seen fp.1).2
    refine ⟨(folderBlock index chunks metadata fi q kc seen fp.1).1 :: blocks, ?_, ?_, ?_⟩
    · simp only [stage2]
      rw [h1]
      rfl
    · simp [h2]
    · intro bi hbi r hr
      cases bi with
      | zero =>
        exact folderBlock_folder index chunks metadata fi q kc seen fp.1 hwf r hr
      | succ bj =>
        exact h3 bj (Nat.succ_lt_succ_iff.mp (by simpa using hbi)) r hr

/-- C10: the list returned by retrieve_hierarchical is grouped by
folder rank, not globally sorted by score: it is the concatenation of
one block per selected folder, in rank order, each block containing
only results of its folder. On a concrete snapshot, a result of the
second-ranked folder follows a lower-scoring result of the top folder,
and a folder whose best chunk is deduplicated away (its text already
emitted by a higher-ranked folder) contributes only 1 result although
topChunksPerFolder is 2 and it holds 2 chunks: duplicates are dropped
with no backfilling. -/
theorem retrieve_grouped_by_folder_rank :
    (∀ (nenv : NumEnv) (st : IndexState) (q : List Char) (kf kc : Nat)
      (index : List Vec) (cap : EmbedCap) (qraw : Vec),
      st.global_index = some index → st.global_embed_model = some cap →
      cap q = .ok qraw → snapshotWF st →
      ∃ blocks : List (List RetResult),
        retrieve_hierarchical nenv st q kf kc = blocks.flatten ∧
        blocks.length =
          ((rankedFolders index st.folder_indices (nenv.normalize qraw)).take kf).length ∧
        ∀ bi (hbi : bi < blocks.length), ∀ r ∈ blocks.get ⟨bi, hbi⟩,
          r.folder =
            (((rankedFolders index st.folder_indices (nenv.normalize qraw)).take kf).getD
              bi ("", 0)).1) ∧
    (retrieve_hierarchical nenvId exSt10 ['q'] 2 2 =
        [⟨['x'], "A", "fa.txt", 97⟩, ⟨['y'], "A", "fa.txt", 50⟩,
          ⟨['z'], "B", "fb.txt", 90⟩] ∧
      ((retrieve_hierarchical nenvId exSt10 ['q'] 2 2).getD 1 default).folder = "A" ∧
      ((retrieve_hierarchical nenvId exSt10 ['q'] 2 2).getD 2 default).folder = "B" ∧
      ((retrieve_hierarchical nenvId exSt10 ['q'] 2 2).getD 1 default).score <
        ((retrieve_hierarchical nenvId exSt10 ['q'] 2 2).getD 2 default).score ∧
      ((retrieve_hierarchical nenvId exSt10 ['q'] 2 2).filter
        (fun r => r.folder == "B")).length = 1) := by
  constructor
  · intro nenv st q kf kc index cap qraw hgi hgm hcap hwf
    obtain ⟨blocks, h1, h2, h3⟩ := stage2_blocks index st.global_chunks st.chunk_metadata
      st.folder_indices (nenv.normalize qraw) kc
      (fun p hp i hi => (hwf.2.2 p hp i hi).2)
      ((rankedFolders index st.folder_indices (nenv.normalize qraw)).take kf) []
    refine ⟨blocks, ?_, h2, h3⟩
    rw [← h1]
    simp only [retrieve_hierarchical, hgi, hgm, retrieve_core, hcap]
  · decide

/-- C10 witness: the grouping theorem applied to the concrete
two-folder snapshot. -/
theorem retrieve_grouped_by_folder_rank_witness :
    ∃ blocks : List (List RetResult),
      retrieve_hierarchical nenvId exSt10 ['q'] 2 2 = blocks.flatten ∧
      blocks.length =
        ((rankedFolders [[97], [50], [96], [90]] exSt10.folder_indices
          (nenvId.normalize [1])).take 2).length ∧
      ∀ bi (hbi : bi < blocks.length), ∀ r ∈ blocks.get ⟨bi, hbi⟩,
        r.folder =
          (((rankedFolders [[97], [50], [96], [90]] exSt10.folder_indices
            (nenvId.normalize [1])).take 2).getD bi ("", 0)).1 :=
  retrieve_grouped_by_folder_rank.1 nenvId exSt10 ['q'] 2 2 [[97], [50], [96], [90]]
    capOne [1] rfl rfl rfl
    ⟨rfl, fun vi hvi => by injection hvi with h; rw [← h]; rfl, by decide⟩
